import Mathlib

/-!
Verification of the TIC python library (`tic-python`).

Part 1: the frame codec of `src/tic/encoding.py` together with the COBS
zero-elimination transform it delegates to (the `cobs` package's
`encode`/`decode` pair, translated byte for byte from its pure-python
implementation).  Bytes are modelled as natural numbers; every arithmetic
truncation of the source (`& 0xFFFF`, `to_bytes(2, "little")`) is explicit.
-/

instance {ε α : Type} [DecidableEq ε] [DecidableEq α] : DecidableEq (Except ε α) := fun a b =>
  match a, b with
  | .ok x, .ok y => decidable_of_iff (x = y) (by simp)
  | .ok _, .error _ => isFalse (by intro h; cases h)
  | .error _, .ok _ => isFalse (by intro h; cases h)
  | .error e, .error f => decidable_of_iff (e = f) (by simp)

namespace Cobs

/-- Error raised by `cobs.decode` (`cobs.DecodeError`); the two messages the
pure-python implementation can produce. -/
inductive DecodeErr where
  | zeroByte
  | truncated
deriving DecidableEq

/-- The group of consecutive non-zero bytes (at most 254 of them) that
`cobs.encode` emits next: `in_bytes[search_start_idx:idx]` at the moment a
block is written out. -/
def group254 (l : List Nat) : List Nat :=
  (l.takeWhile fun b => b != 0).take 254

/-- `cobs.encode` from the `cobs` package: the input is cut into groups of
consecutive non-zero bytes of length at most 254; each group is emitted
prefixed with its length + 1; a group of exactly 254 non-zero bytes is
emitted with code byte 0xFF and no implicit zero after it. -/
def encode (l : List Nat) : List Nat :=
  let grp := group254 l
  if grp.length = 254 then
    if l.length ≤ 254 then
      255 :: grp
    else
      255 :: (grp ++ encode (l.drop 254))
  else
    if l.length ≤ grp.length then
      (grp.length + 1) :: grp
    else
      (grp.length + 1) :: (grp ++ encode (l.drop (grp.length + 1)))
termination_by l.length
decreasing_by
  · simp only [List.length_drop]
    omega
  · simp only [List.length_drop]
    omega

/-- `cobs.decode` from the `cobs` package: repeatedly reads a code byte,
copies the `code - 1` following bytes (which must be non-zero), and inserts
a zero between consecutive blocks except after a 0xFF block. -/
def decode (r : List Nat) : Except DecodeErr (List Nat) :=
  match r with
  | [] => .ok []
  | code :: tail =>
    if code = 0 then
      .error .zeroByte
    else
      let copy := tail.take (code - 1)
      if 0 ∈ copy then
        .error .zeroByte
      else if tail.length < code - 1 then
        .error .truncated
      else if tail.length = code - 1 then
        .ok copy
      else
        match decode (tail.drop (code - 1)) with
        | .ok out => .ok (copy ++ (if code < 255 then 0 :: out else out))
        | .error e => .error e
termination_by r.length
decreasing_by
  simp only [List.length_drop]
  simp only [List.length_cons]
  omega

theorem zero_not_mem_group254 (l : List Nat) : 0 ∉ group254 l := by
  intro h
  have := List.mem_takeWhile_imp (List.mem_of_mem_take h)
  simp at this

theorem group254_length_le_254 (l : List Nat) : (group254 l).length ≤ 254 := by
  simp only [group254, List.length_take]
  omega

theorem group254_prefixOf (l : List Nat) : group254 l <+: l :=
  (List.take_prefix _ _).trans (List.takeWhile_prefix _)

theorem group254_append_drop (l : List Nat) :
    group254 l ++ l.drop (group254 l).length = l := by
  conv_rhs => rw [← List.take_append_drop (group254 l).length l]
  rw [← List.prefix_iff_eq_take.mp (group254_prefixOf l)]

theorem group254_length_le (l : List Nat) : (group254 l).length ≤ l.length :=
  (group254_prefixOf l).length_le

/-- When the emitted group is shorter than 254 bytes and does not exhaust the
input, the next input byte is the zero that ended the group. -/
theorem drop_group254_eq_zero_cons (l : List Nat)
    (h254 : (group254 l).length < 254) (hne : (group254 l).length < l.length) :
    l.drop (group254 l).length = 0 :: l.drop ((group254 l).length + 1) := by
  have htw : (l.takeWhile fun b => b != 0).length < 254 := by
    by_contra h
    simp only [group254, List.length_take] at h254
    omega
  have hgrp : group254 l = l.takeWhile fun b => b != 0 := by
    simp only [group254]
    exact List.take_of_length_le (le_of_lt htw)
  have hdrop : l.drop (group254 l).length = l.dropWhile fun b => b != 0 := by
    calc l.drop (group254 l).length
        = ((l.takeWhile fun b => b != 0) ++ (l.dropWhile fun b => b != 0)).drop
            (group254 l).length := by
          rw [List.takeWhile_append_dropWhile]
      _ = l.dropWhile fun b => b != 0 :=
          List.drop_left' (congrArg List.length hgrp).symm
  have hdw_ne : (l.dropWhile fun b => b != 0) ≠ [] := by
    rw [← hdrop]
    intro hnil
    have := congrArg List.length hnil
    simp only [List.length_drop, List.length_nil] at this
    omega
  obtain ⟨h0, t0, hht⟩ := List.exists_cons_of_ne_nil hdw_ne
  have hhead : h0 = 0 := by
    have h' := List.head?_dropWhile_not (fun b => b != 0) l
    rw [hht] at h'
    simpa using h'
  rw [hdrop, hht, hhead]
  congr 1
  have hdd : l.drop ((group254 l).length + 1) = (l.drop (group254 l).length).drop 1 := by
    rw [List.drop_drop]
  rw [hdd, hdrop, hht]
  simp

theorem encode_ne_nil (l : List Nat) : encode l ≠ [] := by
  rw [encode]
  split <;> split <;> simp

/-- Decoding one block whose code byte is below 255: the block's bytes,
then (if more input follows) an inserted zero and the rest. -/
theorem decode_block_small (grp suffix : List Nat)
    (h : grp.length ≤ 253) (hz : 0 ∉ grp) :
    decode ((grp.length + 1) :: (grp ++ suffix)) =
      if suffix.isEmpty then .ok grp
      else
        match decode suffix with
        | .ok out => .ok (grp ++ 0 :: out)
        | .error e => .error e := by
  rw [decode]
  have hsub : grp.length + 1 - 1 = grp.length := by omega
  simp only [hsub, List.take_left, List.drop_left, List.length_append]
  rw [if_neg (by omega)]
  rw [if_neg hz]
  rw [if_neg (by omega)]
  by_cases hs : suffix = []
  · subst hs
    simp
  · have hlen : suffix.length ≠ 0 := by simpa [List.length_eq_zero] using hs
    rw [if_neg (by omega)]
    have h255 : grp.length + 1 < 255 := by omega
    simp only [if_pos h255]
    rw [if_neg (by simp [hs])]

/-- Decoding one block with code byte 255: the 254 block bytes, then the rest
with no inserted zero. -/
theorem decode_block_full (grp suffix : List Nat)
    (h : grp.length = 254) (hz : 0 ∉ grp) :
    decode (255 :: (grp ++ suffix)) =
      if suffix.isEmpty then .ok grp
      else
        match decode suffix with
        | .ok out => .ok (grp ++ out)
        | .error e => .error e := by
  rw [decode]
  have hsub : (255 : Nat) - 1 = grp.length := by omega
  simp only [hsub, List.take_left, List.drop_left, List.length_append]
  rw [if_neg (by omega)]
  rw [if_neg hz]
  rw [if_neg (by omega)]
  by_cases hs : suffix = []
  · subst hs
    simp
  · have hlen : suffix.length ≠ 0 := by simpa [List.length_eq_zero] using hs
    rw [if_neg (by omega)]
    simp only [if_neg (show ¬(255 < 255) by omega)]
    rw [if_neg (by simp [hs])]

/-- Auxiliary induction (on the input length) for the COBS round-trip. -/
theorem decode_encode_aux :
    ∀ (n : ℕ) (l : List Nat), l.length = n → decode (encode l) = .ok l := by
  intro n
  induction n using Nat.strong_induction_on with
  | _ n IH =>
    intro l hl
    have hz := zero_not_mem_group254 l
    have hgl := group254_length_le l
    rw [encode]
    by_cases h254 : (group254 l).length = 254
    · by_cases hle : l.length ≤ 254
      · have hdnil : l.drop (group254 l).length = [] := by
          have : l.length ≤ (group254 l).length := by omega
          simp [List.drop_eq_nil_iff, this]
        have hlg : group254 l = l := by
          conv_rhs => rw [← group254_append_drop l]
          rw [hdnil, List.append_nil]
        rw [if_pos h254, if_pos hle]
        have hblock := decode_block_full (group254 l) [] h254 hz
        rw [List.append_nil] at hblock
        simp only [List.isEmpty_nil, if_pos] at hblock
        rw [hblock, hlg]
      · rw [if_pos h254, if_neg hle]
        have hrec : decode (encode (l.drop 254)) = .ok (l.drop 254) := by
          refine IH (l.drop 254).length ?_ _ rfl
          simp only [List.length_drop]
          omega
        rw [decode_block_full _ _ h254 hz]
        rw [if_neg (by simp [encode_ne_nil])]
        rw [hrec]
        have heq : group254 l ++ l.drop 254 = l := by
          conv_lhs => rw [show (254 : ℕ) = (group254 l).length from h254.symm]
          exact group254_append_drop l
        exact congrArg Except.ok heq
    · have hsmall : (group254 l).length ≤ 253 := by
        have := group254_length_le_254 l
        omega
      by_cases hle : l.length ≤ (group254 l).length
      · have hdnil : l.drop (group254 l).length = [] := by
          simp [List.drop_eq_nil_iff, hle]
        have hlg : group254 l = l := by
          conv_rhs => rw [← group254_append_drop l]
          rw [hdnil, List.append_nil]
        rw [if_neg h254, if_pos hle]
        have hblock := decode_block_small (group254 l) [] hsmall hz
        rw [List.append_nil] at hblock
        simp only [List.isEmpty_nil, if_pos] at hblock
        rw [hblock, hlg]
      · rw [if_neg h254, if_neg hle]
        have hne : (group254 l).length < l.length := by omega
        have hzc := drop_group254_eq_zero_cons l (by omega) hne
        have hrec : decode (encode (l.drop ((group254 l).length + 1))) =
            .ok (l.drop ((group254 l).length + 1)) := by
          refine IH (l.drop ((group254 l).length + 1)).length ?_ _ rfl
          simp only [List.length_drop]
          omega
        rw [decode_block_small _ _ hsmall hz]
        rw [if_neg (by simp [encode_ne_nil])]
        rw [hrec]
        have heq : group254 l ++ 0 :: l.drop ((group254 l).length + 1) = l := by
          rw [← hzc]
          exact group254_append_drop l
        exact congrArg Except.ok heq

theorem zero_not_mem_encode_aux :
    ∀ (n : ℕ) (l : List Nat), l.length = n → 0 ∉ encode l := by
  intro n
  induction n using Nat.strong_induction_on with
  | _ n IH =>
    intro l hl
    have hz := zero_not_mem_group254 l
    rw [encode]
    by_cases h254 : (group254 l).length = 254
    · rw [if_pos h254]
      by_cases hle : l.length ≤ 254
      · rw [if_pos hle]
        intro hmem
        rcases List.mem_cons.mp hmem with h | h
        · exact absurd h.symm (by norm_num)
        · exact hz h
      · rw [if_neg hle]
        intro hmem
        rcases List.mem_cons.mp hmem with h | h
        · exact absurd h.symm (by norm_num)
        · rcases List.mem_append.mp h with h' | h'
          · exact hz h'
          · refine IH (l.drop 254).length ?_ _ rfl h'
            simp only [List.length_drop]
            omega
    · rw [if_neg h254]
      by_cases hle : l.length ≤ (group254 l).length
      · rw [if_pos hle]
        intro hmem
        rcases List.mem_cons.mp hmem with h | h
        · exact absurd h.symm (by omega)
        · exact hz h
      · rw [if_neg hle]
        intro hmem
        rcases List.mem_cons.mp hmem with h | h
        · exact absurd h.symm (by omega)
        · rcases List.mem_append.mp h with h' | h'
          · exact hz h'
          · refine IH (l.drop ((group254 l).length + 1)).length ?_ _ rfl h'
            simp only [List.length_drop]
            omega

/-- The zero-elimination transform lives up to its name: its output contains
no zero byte. -/
theorem zero_not_mem_encode (l : List Nat) : 0 ∉ encode l :=
  zero_not_mem_encode_aux l.length l rfl

/-- COBS round-trip: decoding an encoded byte sequence recovers it. -/
theorem decode_encode (l : List Nat) : decode (encode l) = .ok l :=
  decode_encode_aux l.length l rfl

end Cobs

namespace TicEncoding

/-- One iteration of the inner `for i in range(8)` loop of
`update_checksum` in `src/tic/encoding.py`. -/
def crcRound (crc : Nat) : Nat :=
  if crc &&& 0x8000 ≠ 0 then
    ((crc <<< 1) ^^^ 0x1021) &&& 0xFFFF
  else
    (crc <<< 1) &&& 0xFFFF

/-- One iteration of the outer `for byte in data` loop of `update_checksum`:
the byte is xored into the top of the register and eight rounds are run. -/
def crcByteStep (crc byte : Nat) : Nat :=
  crcRound^[8] (crc ^^^ (byte <<< 8))

/-- `update_checksum(crc, data)` from `src/tic/encoding.py`. -/
def update_checksum (crc : Nat) (data : List Nat) : Nat :=
  data.foldl crcByteStep crc

/-- `n.to_bytes(2, "little")` (defined whenever `n < 2^16`, which is proved
separately for every checksum the code converts). -/
def toBytesLE2 (n : Nat) : List Nat :=
  [n % 256, n / 256 % 256]

/-- The reason a `DecodingError` is raised by `decode` in
`src/tic/encoding.py`: a COBS transform error, a too-short content, or a
checksum mismatch. -/
inductive DecodingError where
  | cobsError (e : Cobs.DecodeErr)
  | packetTooShort
  | invalidCrc
deriving DecidableEq

/-- `decode(packet)` from `src/tic/encoding.py`: the empty packet decodes to
empty bytes; otherwise the COBS transform is reversed, the content must be at
least 2 bytes, and the CRC over all but the last two bytes must equal the
trailing two bytes little-endian. -/
def decode (packet : List Nat) : Except DecodingError (List Nat) :=
  if packet.length = 0 then
    .ok []
  else
    match Cobs.decode packet with
    | .error e => .error (.cobsError e)
    | .ok contents =>
      if contents.length < 2 then
        .error .packetTooShort
      else if toBytesLE2 (update_checksum 0 (contents.take (contents.length - 2)))
          ≠ contents.drop (contents.length - 2) then
        .error .invalidCrc
      else
        .ok (contents.take (contents.length - 2))

/-- `encode(payload)` from `src/tic/encoding.py`: empty payload encodes to
empty bytes; otherwise the CRC over the payload is appended little-endian and
the result is COBS-transformed. -/
def encode (payload : List Nat) : List Nat :=
  if payload.length = 0 then
    []
  else
    Cobs.encode (payload ++ toBytesLE2 (update_checksum 0 payload))

/-- The byte sequence `SerialInterface.write` puts on the wire
(`src/tic/serial_interface.py`): the encoded frame followed by a single
`0x00` terminator. -/
def serialWriteBytes (data : List Nat) : List Nat :=
  encode data ++ [0]

theorem crcRound_lt (x : Nat) : crcRound x < 65536 := by
  unfold crcRound
  split <;> exact Nat.lt_of_le_of_lt Nat.and_le_right (by omega)

theorem crcByteStep_lt (crc b : Nat) : crcByteStep crc b < 65536 := by
  unfold crcByteStep
  rw [show (8 : ℕ) = 7 + 1 from rfl, Function.iterate_succ_apply']
  exact crcRound_lt _

/-- The checksum of a non-empty byte list fits in 16 bits, so
`crc.to_bytes(2, "little")` in the source never overflows. -/
theorem update_checksum_lt (crc : Nat) (data : List Nat) (h : data ≠ []) :
    update_checksum crc data < 65536 := by
  rcases data.eq_nil_or_concat with rfl | ⟨q, b, rfl⟩
  · exact absurd rfl h
  · simp only [update_checksum, List.concat_eq_append, List.foldl_append,
      List.foldl_cons, List.foldl_nil]
    exact crcByteStep_lt _ _

theorem length_toBytesLE2 (n : Nat) : (toBytesLE2 n).length = 2 := rfl

/-- Frame-level round-trip over the zero-elimination transform and checksum:
`decode (encode p) = p` for every byte payload, the empty one included. -/
theorem decode_encode_frame (p : List Nat) : decode (encode p) = .ok p := by
  by_cases hp : p.length = 0
  · rw [List.length_eq_zero] at hp
    subst hp
    rw [encode, decode]
    simp
  · rw [encode, if_neg hp]
    set m := p ++ toBytesLE2 (update_checksum 0 p) with hm
    have hmlen : m.length = p.length + 2 := by
      rw [hm]
      simp [toBytesLE2]
    rw [decode]
    rw [if_neg (by
      intro hzero
      rw [List.length_eq_zero] at hzero
      exact Cobs.encode_ne_nil m hzero)]
    rw [Cobs.decode_encode m]
    have hsub : m.length - 2 = p.length := by omega
    have htake : m.take (m.length - 2) = p := by
      rw [hsub, hm]
      exact List.take_left p _
    have hdrop : m.drop (m.length - 2) = toBytesLE2 (update_checksum 0 p) := by
      rw [hsub, hm]
      exact List.drop_left p _
    have h2 : ¬(m.length < 2) := by omega
    simp [h2, htake, hdrop]

/-- Transcribed from the spec's words, not from the code: one step of the
textbook CCITT/XMODEM CRC bit process — the register's top bit is xored with
the incoming message bit; the register shifts left one position and, when that
xor was one, the polynomial `0x1021` is xored in; no final xor. -/
def crcBit (crc : Nat) (bit : Bool) : Nat :=
  if crc.testBit 15 != bit then
    ((crc <<< 1) ^^^ 0x1021) &&& 0xFFFF
  else
    (crc <<< 1) &&& 0xFFFF

/-- The bits `k-1, …, 0` of `b`, most significant first. -/
def bitsRange (b k : Nat) : List Bool :=
  (List.range k).reverse.map b.testBit

/-- Transcribed from the spec's words: a byte is fed into the CRC register
MSB-first, one bit at a time. -/
def crcSpecByte (crc b : Nat) : Nat :=
  (bitsRange b 8).foldl crcBit crc

/-- Transcribed from the spec's words: the 16-bit CCITT/XMODEM CRC
(polynomial `0x1021`, MSB-first per byte, no final xor) of a byte list,
starting from a given register value. -/
def crcSpec (crc : Nat) (data : List Nat) : Nat :=
  data.foldl crcSpecByte crc

theorem xor_shiftLeft (a b n : Nat) : (a ^^^ b) <<< n = (a <<< n) ^^^ (b <<< n) := by
  apply Nat.eq_of_testBit_eq
  intro i
  simp only [Nat.testBit_shiftLeft, Nat.testBit_xor]
  rcases le_or_lt n i with h | h
  · simp [h]
  · simp [Nat.not_le.mpr h]

theorem maskedShift (r n1 : Nat) (h : n1 ≤ 16) :
    (r <<< n1) &&& 0xFFFF = (r % 2 ^ (16 - n1)) <<< n1 := by
  rw [show (0xFFFF : Nat) = 2 ^ 16 - 1 from rfl, Nat.and_pow_two_sub_one_eq_mod]
  rw [Nat.shiftLeft_eq, Nat.shiftLeft_eq]
  rw [show (2 : Nat) ^ 16 = 2 ^ (16 - n1) * 2 ^ n1 by
    rw [← pow_add]
    congr 1
    omega]
  exact Nat.mul_mod_mul_right _ _ _

theorem and_8000_ne (x : Nat) : (x &&& 0x8000 ≠ 0) ↔ x.testBit 15 = true := by
  rw [show (0x8000 : Nat) = 2 ^ 15 from rfl, Nat.and_two_pow]
  cases h : x.testBit 15 <;> simp

/-- The implementation's round, applied to a register xored with the not yet
processed message bits parked so that the next one sits at bit 15, advances
the spec's bit process by one bit. -/
theorem crcRound_step (s r m : Nat) (hm : 1 ≤ m) (hm16 : m ≤ 16) :
    crcRound (s ^^^ (r <<< (16 - m))) =
      crcBit s (r.testBit (m - 1)) ^^^ ((r % 2 ^ (m - 1)) <<< (16 - (m - 1))) := by
  have htop : (s ^^^ (r <<< (16 - m))).testBit 15 =
      (s.testBit 15 != r.testBit (m - 1)) := by
    simp only [Nat.testBit_xor, Nat.testBit_shiftLeft]
    have h1 : 16 - m ≤ 15 := by omega
    have h2 : 15 - (16 - m) = m - 1 := by omega
    simp [h1, h2]
  have hshift : (r <<< (16 - m)) <<< 1 = r <<< (16 - (m - 1)) := by
    rw [← Nat.shiftLeft_add]
    congr 1
    omega
  have hmask : (r <<< (16 - (m - 1))) &&& 0xFFFF
      = (r % 2 ^ (m - 1)) <<< (16 - (m - 1)) := by
    rw [maskedShift _ _ (by omega)]
    have he : 16 - (16 - (m - 1)) = m - 1 := by omega
    rw [he]
  have hX : (s ^^^ (r <<< (16 - m))) <<< 1
      = (s <<< 1) ^^^ (r <<< (16 - (m - 1))) := by
    rw [xor_shiftLeft, hshift]
  rw [crcRound, crcBit]
  rcases hx : (s.testBit 15 != r.testBit (m - 1)) with _ | _
  · rw [if_neg (by rw [and_8000_ne, htop, hx]; simp)]
    rw [if_neg (by simp)]
    rw [hX, Nat.and_xor_distrib_right, hmask]
  · rw [if_pos ((and_8000_ne _).mpr (htop.trans hx))]
    rw [if_pos rfl]
    rw [hX]
    rw [Nat.xor_assoc, Nat.xor_comm (r <<< (16 - (m - 1))) 0x1021, ← Nat.xor_assoc]
    rw [Nat.and_xor_distrib_right, hmask]


/-- Iterating the implementation's round `k` times starting from a register
with the `k` unprocessed low bits of `b` parked on top equals folding the
spec's bit process over those bits, most significant first. -/
theorem crcRound_iterate (k : Nat) (hk : k ≤ 16) :
    ∀ s b : Nat,
      crcRound^[k] (s ^^^ ((b % 2 ^ k) <<< (16 - k))) = (bitsRange b k).foldl crcBit s := by
  induction k with
  | zero =>
    intro s b
    simp [bitsRange, Nat.mod_one, Nat.zero_shiftLeft]
  | succ k ih =>
    intro s b
    rw [Function.iterate_succ_apply]
    have hstep := crcRound_step s (b % 2 ^ (k + 1)) (k + 1) (by omega) (by omega)
    rw [Nat.add_sub_cancel] at hstep
    have h1 : (b % 2 ^ (k + 1)).testBit k = b.testBit k := by
      simp [Nat.testBit_mod_two_pow]
    have h2 : (b % 2 ^ (k + 1)) % 2 ^ k = b % 2 ^ k :=
      Nat.mod_mod_of_dvd _ (pow_dvd_pow 2 (by omega))
    rw [hstep, h1, h2, ih (by omega)]
    rw [show bitsRange b (k + 1) = b.testBit k :: bitsRange b k by
      simp [bitsRange, List.range_succ]]
    rfl

/-- Per byte, the table-free shift register loop of `update_checksum` agrees
with the spec's MSB-first bit-at-a-time description. -/
theorem crcByteStep_eq_crcSpecByte (crc b : Nat) (hb : b < 256) :
    crcByteStep crc b = crcSpecByte crc b := by
  have h := crcRound_iterate 8 (by omega) crc b
  rw [Nat.mod_eq_of_lt (by omega : b < 2 ^ 8)] at h
  exact h

/-- `update_checksum` computes exactly the CRC the spec describes: CCITT/XMODEM
polynomial `0x1021`, MSB-first per byte, no final xor. -/
theorem update_checksum_eq_crcSpec (crc : Nat) (data : List Nat)
    (hb : ∀ b ∈ data, b < 256) :
    update_checksum crc data = crcSpec crc data := by
  induction data generalizing crc with
  | nil => rfl
  | cons x xs ih =>
    rw [update_checksum, crcSpec, List.foldl_cons, List.foldl_cons]
    rw [crcByteStep_eq_crcSpecByte _ _ (hb x (by simp))]
    exact ih _ (fun b hbm => hb b (List.mem_cons_of_mem x hbm))

/-- For a non-empty packet whose zero-elimination decoding yields fewer than
2 content bytes, `decode` raises the "packet too short" `DecodingError`. -/
theorem decode_short_content (packet contents : List Nat)
    (hne : packet ≠ []) (hc : Cobs.decode packet = .ok contents)
    (hlen : contents.length < 2) :
    decode packet = .error .packetTooShort := by
  rw [decode]
  rw [if_neg (by simpa [List.length_eq_zero] using hne)]
  rw [hc]
  simp [hlen]

end TicEncoding

/-!
Part 2: the receive paths of the `Tic` connection class
(`src/airel/tic/device.py`).  A JSON message is modelled by which of the
`result`/`error` keys it carries; the transport (`self.port.read()`) is
modelled by the finite list of read outcomes that occur before the deadline
`tend` passes, exhaustion of the list standing for the deadline check
`time.time() < tend` failing.
-/

namespace Device

/-- A parsed JSON message, as `_receive_response` and `receive_message`
inspect it: the value under `"result"` if that key is present, the pair
`(error.get("msg"), error.get("code"))` if the `"error"` key is present, and
the remaining content of the message (`body`), which the receive paths carry
around but never inspect.  `V` is the type of opaque JSON values. -/
structure JMsg (V : Type) where
  resultVal : Option V
  errorObj : Option (Option V × Option V)
  body : V
deriving DecidableEq

/-- One outcome of a `self.port.read()` call: the read timed out
(`ReceiveTimeout` caught and swallowed), returned an empty payload, returned
bytes that are not valid JSON, or returned a parsed message. -/
inductive ReadEvent (V : Type) where
  | timeout
  | emptyPayload
  | badJson
  | msg (m : JMsg V)
deriving DecidableEq

/-- How `Tic._receive_response` ends. -/
inductive RespOutcome (V : Type) where
  | ok (v : V)
  | decodingError
  | deviceError (emsg ecode : Option V)
  | timedOut
deriving DecidableEq

/-- `Tic._receive_response`: reads until the deadline; a `result` message
returns, an `error` message raises `DeviceErrorResponse`, an invalid JSON
payload (the empty payload included, since `json.loads(b"")` fails) raises
`DecodingError`, anything else is appended to `message_queue`; an exhausted
deadline raises `ReceiveTimeout`.  Returns the outcome and the final
`message_queue`. -/
def receiveResponse {V : Type} :
    List (ReadEvent V) → List (JMsg V) → RespOutcome V × List (JMsg V)
  | [], q => (.timedOut, q)
  | e :: rest, q =>
    match e with
    | .timeout => receiveResponse rest q
    | .emptyPayload => (.decodingError, q)
    | .badJson => (.decodingError, q)
    | .msg m =>
      match m.resultVal with
      | some v => (.ok v, q)
      | none =>
        match m.errorObj with
        | some (emsg, ecode) => (.deviceError emsg ecode, q)
        | none => receiveResponse rest (q ++ [m])

/-- How `Tic.receive_message` ends. -/
inductive MsgOutcome (V : Type) where
  | message (m : JMsg V)
  | noneValue
  | decodingError
  | deviceError (emsg ecode : Option V)
deriving DecidableEq

/-- The polling loop of `Tic.receive_message`: empty payloads and read
timeouts are skipped, invalid JSON raises `DecodingError`, an `error`
message raises `DeviceErrorResponse`, any other message is returned; an
exhausted deadline returns `None`. -/
def receiveMessageLoop {V : Type} : List (ReadEvent V) → MsgOutcome V
  | [] => .noneValue
  | e :: rest =>
    match e with
    | .timeout => receiveMessageLoop rest
    | .emptyPayload => receiveMessageLoop rest
    | .badJson => .decodingError
    | .msg m =>
      match m.errorObj with
      | some (emsg, ecode) => .deviceError emsg ecode
      | none => .message m

/-- `Tic.receive_message`: pops the oldest queued message if the queue is
non-empty, returns `None` immediately when `timeout == 0`, otherwise polls
the transport.  Returns the outcome and the remaining queue. -/
def receiveMessage {V : Type} (queue : List (JMsg V)) (timeoutIsZero : Bool)
    (reads : List (ReadEvent V)) : MsgOutcome V × List (JMsg V) :=
  match queue with
  | m :: rest => (.message m, rest)
  | [] =>
    if timeoutIsZero then
      (.noneValue, [])
    else
      (receiveMessageLoop reads, [])

/-- A read event that neither completes `_receive_response` nor raises: a
swallowed timeout or an unsolicited message (no `result` and no `error`
key). -/
def nonDeciding {V : Type} : ReadEvent V → Bool
  | .timeout => true
  | .msg m => m.resultVal.isNone && m.errorObj.isNone
  | _ => false

/-- The unsolicited messages among a list of read events, in arrival
order. -/
def queuedOf {V : Type} (es : List (ReadEvent V)) : List (JMsg V) :=
  es.filterMap fun e =>
    match e with
    | .msg m => if m.resultVal.isNone && m.errorObj.isNone then some m else none
    | _ => none

/-- Processing a run of non-deciding events only grows the queue with the
unsolicited messages among them, in order. -/
theorem receiveResponse_append {V : Type} (pre : List (ReadEvent V))
    (hpre : ∀ e ∈ pre, nonDeciding e = true) :
    ∀ (rest : List (ReadEvent V)) (q : List (JMsg V)),
      receiveResponse (pre ++ rest) q = receiveResponse rest (q ++ queuedOf pre) := by
  induction pre with
  | nil =>
    intro rest q
    simp [queuedOf]
  | cons e pre ih =>
    intro rest q
    have he : nonDeciding e = true := hpre e (by simp)
    match e with
    | .timeout =>
      rw [List.cons_append, receiveResponse]
      rw [ih (fun x hx => hpre x (by simp [hx])) rest q]
      simp [queuedOf]
    | .emptyPayload => simp [nonDeciding] at he
    | .badJson => simp [nonDeciding] at he
    | .msg m =>
      simp only [nonDeciding, Bool.and_eq_true, Option.isNone_iff_eq_none] at he
      rw [List.cons_append, receiveResponse]
      rw [he.1, he.2]
      rw [ih (fun x hx => hpre x (by simp [hx])) rest (q ++ [m])]
      simp [queuedOf, he.1, he.2]

/-- With only non-deciding events before the deadline, `_receive_response`
raises `ReceiveTimeout`, the unsolicited messages having been queued. -/
theorem receiveResponse_all_nonDeciding {V : Type} (reads : List (ReadEvent V))
    (h : ∀ e ∈ reads, nonDeciding e = true) (q : List (JMsg V)) :
    receiveResponse reads q = (.timedOut, q ++ queuedOf reads) := by
  have := receiveResponse_append reads h [] q
  rw [List.append_nil] at this
  rw [this, receiveResponse]

/-- A quiet transport (timeouts and empty payloads only) makes the polling
loop of `receive_message` return `None`. -/
theorem receiveMessageLoop_quiet {V : Type} (reads : List (ReadEvent V))
    (h : ∀ e ∈ reads, e = ReadEvent.timeout ∨ e = ReadEvent.emptyPayload) :
    receiveMessageLoop reads = (.noneValue : MsgOutcome V) := by
  induction reads with
  | nil => rfl
  | cons e rest ih =>
    have := h e (by simp)
    rcases this with rfl | rfl
    · rw [receiveMessageLoop]
      exact ih fun x hx => h x (by simp [hx])
    · rw [receiveMessageLoop]
      exact ih fun x hx => h x (by simp [hx])

end Device

/-!
Part 3: the measurement-cycle scheduler and the configuration validation of
`src/airel/tic/util/records_logger.py`.  Timestamps, durations and shifts are
real quantities, modelled as rationals; `divmod(a, b)` on them is
`(⌊a / b⌋, a - ⌊a / b⌋ * b)`.
-/

namespace RecordsLogger

/-- The configuration mapping handed to `run` before pydantic validation.
A `none` field is an absent key (pydantic then uses the declared default);
`hasUnknownKeys` records whether the mapping carries a key that is not a
declared field (`extra="forbid"`).  `local_tz` and `custom_settings` carry no
constraint in the model class and play no part in validation. -/
structure RawConfig where
  averaging_period : Option ℚ
  settling_time : Option ℚ
  measurement_cycle : Option (List (String × ℚ))
  cycle_shift : Option ℚ
  allow_power_from_usb_data : Option Bool
  blowers_enabled_during_zero : Option Bool
  hasUnknownKeys : Bool
deriving DecidableEq

/-- A validated `Config` (the pydantic model of `records_logger.py`). -/
structure Config where
  averaging_period : ℚ
  settling_time : ℚ
  measurement_cycle : List (String × ℚ)
  cycle_shift : ℚ
  allow_power_from_usb_data : Bool
  blowers_enabled_during_zero : Bool
deriving DecidableEq

/-- `Config(**config)` in `run`: pydantic rejects unknown keys
(`extra="forbid"`), requires `cycle_shift` (a field with no default), and
checks `PositiveFloat` on `averaging_period` and `settling_time`.
`measurement_cycle` is declared as a bare `list`, so its contents are
accepted unchecked. -/
def validateConfig (c : RawConfig) : Except String Config :=
  if c.hasUnknownKeys then
    .error "extra inputs are not permitted"
  else
    match c.cycle_shift with
    | none => .error "cycle_shift: field required"
    | some sh =>
      let ap := c.averaging_period.getD 10
      let st := c.settling_time.getD 30
      if ap ≤ 0 then
        .error "averaging_period: must be positive"
      else if st ≤ 0 then
        .error "settling_time: must be positive"
      else
        .ok { averaging_period := ap
              settling_time := st
              measurement_cycle := c.measurement_cycle.getD [("zero", 60), ("run", 120)]
              cycle_shift := sh
              allow_power_from_usb_data := c.allow_power_from_usb_data.getD true
              blowers_enabled_during_zero := c.blowers_enabled_during_zero.getD true }

/-- `run(connection, config)` opens a device session (`airel.tic.Tic(...)`)
exactly when `Config(**config)` validated: a `ValidationError` is re-raised
as `TicError` before the connection loop is entered, and otherwise the first
loop iteration constructs the device. -/
def runOpensDeviceSession (c : RawConfig) : Bool :=
  (validateConfig c).isOk

/-- `MeasurementCycle` state: the phase table, the shift, the cached total
cycle duration, and the cached next phase-change instant (`None` on a fresh
scheduler). -/
structure MeasurementCycle where
  cycle_def : List (String × ℚ)
  shift : ℚ
  total_duration : ℚ
  next_change : Option ℚ
deriving DecidableEq

/-- `MeasurementCycle.__init__`. -/
def MeasurementCycle.init (cycle_def : List (String × ℚ)) (shift : ℚ) :
    MeasurementCycle :=
  { cycle_def := cycle_def
    shift := shift
    total_duration := (cycle_def.map Prod.snd).sum
    next_change := none }

/-- The `for mode, duration in self.cycle_def` loop of `get_mode`: walks the
phase table advancing `next_change` by each duration, returning the first
mode whose cumulative span covers `rel_t`; falling off the end returns
`None` with `next_change` advanced by the whole cycle. -/
def modeLoop : List (String × ℚ) → ℚ → ℚ → Option String × ℚ
  | [], nc, _ => (none, nc)
  | (mode, duration) :: rest, nc, rel =>
    if rel ≤ duration then
      (some mode, nc + duration)
    else
      modeLoop rest (nc + duration) (rel - duration)

/-- The recomputation branch of `get_mode`:
`cycles_since_epoch, rel_t = divmod(timestamp - self.shift, self.total_duration)`,
then the table walk.  (When `total_duration` is zero the python raises
`ZeroDivisionError`; every theorem below therefore assumes it positive.) -/
def MeasurementCycle.recompute (s : MeasurementCycle) (timestamp : ℚ) :
    Option String × MeasurementCycle :=
  let cycles : ℤ := ⌊(timestamp - s.shift) / s.total_duration⌋
  let rel : ℚ := (timestamp - s.shift) - cycles * s.total_duration
  let (mode, nc) := modeLoop s.cycle_def ((cycles : ℚ) * s.total_duration + s.shift) rel
  (mode, { s with next_change := some nc })

/-- `MeasurementCycle.get_mode(timestamp)`: recomputes when `next_change` is
`None` or lies strictly in the past, and otherwise reports no change. -/
def MeasurementCycle.get_mode (s : MeasurementCycle) (timestamp : ℚ) :
    Option String × MeasurementCycle :=
  match s.next_change with
  | none => s.recompute timestamp
  | some nc =>
    if timestamp > nc then
      s.recompute timestamp
    else
      (none, s)

/-- The poll timeout `min(cycle.next_change - ts, 1.0)` that `collect_data`
passes to `receive_message` right after `get_mode`. -/
def pollTimeout (next_change ts : ℚ) : ℚ :=
  min (next_change - ts) 1

/-- A scheduler state whose cached total duration is the sum of its table's
durations, as `__init__` establishes. -/
def MeasurementCycle.WFState (s : MeasurementCycle) : Prop :=
  s.total_duration = (s.cycle_def.map Prod.snd).sum

theorem MeasurementCycle.init_wfState (cycle_def : List (String × ℚ)) (shift : ℚ) :
    (MeasurementCycle.init cycle_def shift).WFState := rfl

/-- The table walk always finds a phase when `rel` does not exceed the sum
of the durations, and the new `next_change` lands at or after `nc + rel`. -/
theorem modeLoop_spec :
    ∀ (cd : List (String × ℚ)) (nc rel : ℚ),
      rel ≤ (cd.map Prod.snd).sum → cd ≠ [] →
      (∃ mode, (modeLoop cd nc rel).1 = some mode) ∧
        nc + rel ≤ (modeLoop cd nc rel).2 := by
  intro cd
  induction cd with
  | nil => intro nc rel _ hne; exact absurd rfl hne
  | cons hd tl ih =>
    intro nc rel hrel _
    obtain ⟨mode, duration⟩ := hd
    by_cases hle : rel ≤ duration
    · rw [modeLoop, if_pos hle]
      exact ⟨⟨mode, rfl⟩, by simpa using hle⟩
    · rw [modeLoop, if_neg hle]
      rcases tl with _ | ⟨tlh, tlt⟩
      · exfalso
        simp only [List.map_cons, List.map_nil, List.sum_cons, List.sum_nil,
          add_zero] at hrel
        exact hle hrel
      · have hrel' : rel - duration ≤ (((tlh :: tlt).map Prod.snd).sum) := by
          simp only [List.map_cons, List.sum_cons] at hrel ⊢
          linarith
        have := ih (nc + duration) (rel - duration) hrel' (by simp)
        refine ⟨this.1, ?_⟩
        have h2 := this.2
        linarith

/-- The recompute branch always returns a phase and caches a
`next_change` no earlier than the queried timestamp. -/
theorem MeasurementCycle.recompute_spec (s : MeasurementCycle) (t : ℚ)
    (hwf : s.WFState) (hpos : 0 < s.total_duration) :
    ∃ mode nc, s.recompute t = (some mode, { s with next_change := some nc }) ∧ t ≤ nc := by
  have hTne : s.total_duration ≠ 0 := ne_of_gt hpos
  set T := s.total_duration with hT
  set y := t - s.shift with hy
  set c : ℤ := ⌊y / T⌋ with hc
  have h1 : (c : ℚ) * T ≤ y := by
    have := Int.floor_le (y / T)
    rw [← hc] at this
    calc (c : ℚ) * T ≤ (y / T) * T := by
          exact mul_le_mul_of_nonneg_right this (le_of_lt hpos)
      _ = y := div_mul_cancel₀ y hTne
  have h2 : y < ((c : ℚ) + 1) * T := by
    have := Int.lt_floor_add_one (y / T)
    rw [← hc] at this
    calc y = (y / T) * T := (div_mul_cancel₀ y hTne).symm
      _ < ((c : ℚ) + 1) * T := by
          exact mul_lt_mul_of_pos_right (by exact_mod_cast this) hpos
  have hcd : s.cycle_def ≠ [] := by
    intro hnil
    rw [MeasurementCycle.WFState, hnil] at hwf
    simp at hwf
    exact hTne (hT ▸ hwf)
  have hrelsum : y - (c : ℚ) * T ≤ ((s.cycle_def.map Prod.snd).sum) := by
    rw [← hwf]
    have : y - (c : ℚ) * T < T := by nlinarith
    exact le_of_lt this
  rcases hml : modeLoop s.cycle_def ((c : ℚ) * T + s.shift) (y - (c : ℚ) * T)
    with ⟨m0, nc0⟩
  obtain ⟨⟨mode, hm⟩, hnc⟩ :=
    modeLoop_spec s.cycle_def ((c : ℚ) * T + s.shift) (y - (c : ℚ) * T) hrelsum hcd
  rw [hml] at hm hnc
  simp only at hm hnc
  refine ⟨mode, nc0, ?_, ?_⟩
  · simp only [MeasurementCycle.recompute]
    rw [← hy, ← hT, ← hc, hml, hm]
  · have hbase : (c : ℚ) * T + s.shift + (y - (c : ℚ) * T) = t := by
      rw [hy]
      ring
    linarith

/-- After any `get_mode(t)` call on a well-formed scheduler with positive
cycle duration, `next_change` is set, is at least `t`, and the table, shift
and cached total are untouched. -/
theorem MeasurementCycle.get_mode_spec (s : MeasurementCycle) (t : ℚ)
    (hwf : s.WFState) (hpos : 0 < s.total_duration) :
    ∃ nc, ((s.get_mode t).2).next_change = some nc ∧ t ≤ nc ∧
      (s.get_mode t).2.cycle_def = s.cycle_def ∧
      (s.get_mode t).2.shift = s.shift ∧
      (s.get_mode t).2.total_duration = s.total_duration := by
  cases hn : s.next_change with
  | none =>
    simp only [MeasurementCycle.get_mode, hn]
    obtain ⟨mode, nc, heq, ht⟩ := MeasurementCycle.recompute_spec s t hwf hpos
    rw [heq]
    exact ⟨nc, rfl, ht, rfl, rfl, rfl⟩
  | some nc =>
    simp only [MeasurementCycle.get_mode, hn]
    by_cases hgt : t > nc
    · rw [if_pos hgt]
      obtain ⟨mode, nc', heq, ht⟩ := MeasurementCycle.recompute_spec s t hwf hpos
      rw [heq]
      exact ⟨nc', rfl, ht, rfl, rfl, rfl⟩
    · rw [if_neg hgt]
      exact ⟨nc, hn, le_of_not_lt hgt, rfl, rfl, rfl⟩


/-- `Config(**config)` succeeds exactly when there are no unknown keys, a
cycle shift is supplied, and the (possibly defaulted) averaging period and
settling duration are positive. -/
theorem validateConfig_isOk (c : RawConfig) :
    (validateConfig c).isOk = true ↔
      (c.hasUnknownKeys = false ∧ (∃ sh, c.cycle_shift = some sh) ∧
        0 < c.averaging_period.getD 10 ∧ 0 < c.settling_time.getD 30) := by
  by_cases hk : c.hasUnknownKeys
  · simp [validateConfig, hk, Except.isOk, Except.toBool]
  · simp only [Bool.not_eq_true] at hk
    cases hcs : c.cycle_shift with
    | none => simp [validateConfig, hk, hcs, Except.isOk, Except.toBool]
    | some sh =>
      by_cases hap : c.averaging_period.getD 10 ≤ 0
      · simp [validateConfig, hk, hcs, hap, Except.isOk, Except.toBool, not_lt.mpr hap]
      · by_cases hst : c.settling_time.getD 30 ≤ 0
        · simp [validateConfig, hk, hcs, hap, hst, Except.isOk, Except.toBool,
            not_lt.mpr hst, not_le.mp hap]
        · simp [validateConfig, hk, hcs, hap, hst, Except.isOk, Except.toBool,
            not_le.mp hap, not_le.mp hst]

/-- The fields of a validated config: the positivity checks passed. -/
theorem validateConfig_ok_pos (c : RawConfig) (cfg : Config)
    (hok : validateConfig c = .ok cfg) :
    0 < cfg.averaging_period ∧ 0 < cfg.settling_time := by
  by_cases hk : c.hasUnknownKeys
  · simp [validateConfig, hk] at hok
  · simp only [Bool.not_eq_true] at hk
    cases hcs : c.cycle_shift with
    | none => simp [validateConfig, hk, hcs] at hok
    | some sh =>
      by_cases hap : c.averaging_period.getD 10 ≤ 0
      · simp [validateConfig, hk, hcs, hap] at hok
      · by_cases hst : c.settling_time.getD 30 ≤ 0
        · simp [validateConfig, hk, hcs, hap, hst] at hok
        · simp only [validateConfig, hk, hcs, hap, hst, if_false, Bool.false_eq_true,
            if_neg, not_false_eq_true] at hok
          cases hok
          exact ⟨not_le.mp hap, not_le.mp hst⟩

end RecordsLogger

/-!
Part 4: the claims, one theorem per claim (with a closed witness when the
theorem carries hypotheses, and a closed counterexample when the claim as
stated fails on the code).
-/

/-- C1: for every byte payload `p`, the empty payload and payloads with
embedded zero bytes included, decoding the encoding of `p` yields `p`:
`decode(encode(p)) == p`. -/
theorem claim_C1_roundtrip (p : List Nat) (hbytes : ∀ b ∈ p, b < 256) :
    TicEncoding.decode (TicEncoding.encode p) = .ok p :=
  TicEncoding.decode_encode_frame p

theorem claim_C1_witness :
    (∀ b ∈ [1, 0, 2, 0, 0, 255], b < 256) ∧
      TicEncoding.decode (TicEncoding.encode [1, 0, 2, 0, 0, 255]) =
        .ok [1, 0, 2, 0, 0, 255] :=
  ⟨by decide, claim_C1_roundtrip [1, 0, 2, 0, 0, 255] (by decide)⟩

/-- C2 counterexample: the claim says decoding the empty framed input fails
with a length error and never returns a payload, but `decode(b"")` is an
explicit special case returning the empty payload. -/
theorem claim_C2_counterexample : TicEncoding.decode [] = .ok [] := by
  simp [TicEncoding.decode]

/-- C2 (amended): for every NON-empty framed input whose decoded content is
fewer than 2 bytes, `decode` fails with the "packet too short"
`DecodingError` and never returns a payload; the empty frame instead decodes
to empty bytes. -/
theorem claim_C2_short_frame (packet contents : List Nat)
    (hne : packet ≠ []) (hcobs : Cobs.decode packet = .ok contents)
    (hshort : contents.length < 2) :
    TicEncoding.decode packet = .error .packetTooShort :=
  TicEncoding.decode_short_content packet contents hne hcobs hshort

theorem claim_C2_witness :
    ([1] ≠ ([] : List Nat)) ∧ Cobs.decode [1] = .ok [] ∧ ([] : List Nat).length < 2 ∧
      TicEncoding.decode [1] = .error .packetTooShort :=
  ⟨by simp, by simp [Cobs.decode], by simp,
    claim_C2_short_frame [1] [] (by simp) (by simp [Cobs.decode]) (by simp)⟩

/-- C6: for a non-empty byte payload `p`, `encode` appends the 16-bit
CCITT/XMODEM CRC of `p` (polynomial 0x1021, initial value 0, MSB-first per
byte, no final xor — the `crcSpec` transcription) little-endian and applies
the zero-elimination transform, whose output contains no zero byte;
`SerialInterface.write` then appends the single 0x00 terminator; the empty
payload encodes to empty bytes. -/
theorem claim_C6_encode_pipeline (p : List Nat) (hbytes : ∀ b ∈ p, b < 256)
    (hne : p ≠ []) :
    TicEncoding.encode [] = [] ∧
    TicEncoding.encode p =
      Cobs.encode (p ++ TicEncoding.toBytesLE2 (TicEncoding.update_checksum 0 p)) ∧
    TicEncoding.update_checksum 0 p = TicEncoding.crcSpec 0 p ∧
    TicEncoding.update_checksum 0 p < 65536 ∧
    0 ∉ TicEncoding.encode p ∧
    TicEncoding.serialWriteBytes p = TicEncoding.encode p ++ [0] := by
  have hl : p.length ≠ 0 := by simpa [List.length_eq_zero] using hne
  refine ⟨rfl, ?_, ?_, ?_, ?_, rfl⟩
  · rw [TicEncoding.encode, if_neg hl]
  · exact TicEncoding.update_checksum_eq_crcSpec 0 p hbytes
  · exact TicEncoding.update_checksum_lt 0 p hne
  · rw [TicEncoding.encode, if_neg hl]
    exact Cobs.zero_not_mem_encode _

theorem claim_C6_witness :
    (∀ b ∈ [1, 0, 2], b < 256) ∧ ([1, 0, 2] ≠ ([] : List Nat)) ∧
      (TicEncoding.encode [] = [] ∧
       TicEncoding.encode [1, 0, 2] =
         Cobs.encode ([1, 0, 2] ++
           TicEncoding.toBytesLE2 (TicEncoding.update_checksum 0 [1, 0, 2])) ∧
       TicEncoding.update_checksum 0 [1, 0, 2] = TicEncoding.crcSpec 0 [1, 0, 2] ∧
       TicEncoding.update_checksum 0 [1, 0, 2] < 65536 ∧
       0 ∉ TicEncoding.encode [1, 0, 2] ∧
       TicEncoding.serialWriteBytes [1, 0, 2] = TicEncoding.encode [1, 0, 2] ++ [0]) :=
  ⟨by decide, by decide, claim_C6_encode_pipeline [1, 0, 2] (by decide) (by decide)⟩

/-- C5: with timeout 0 and an empty queue, `receive_message` returns the
`None` sentinel at once, independently of anything the transport would
deliver; with any timeout, a transport producing no message (only timeouts
and empty payloads) yields the `None` sentinel rather than an exception; a
non-empty queue yields its oldest message, independently of the transport. -/
theorem claim_C5_receive_message {V : Type} (reads1 reads2 : List (Device.ReadEvent V))
    (tz : Bool) (m : Device.JMsg V) (rest : List (Device.JMsg V))
    (hquiet : ∀ e ∈ reads2, e = Device.ReadEvent.timeout ∨ e = Device.ReadEvent.emptyPayload) :
    Device.receiveMessage [] true reads1 = (.noneValue, []) ∧
    Device.receiveMessage [] tz reads2 = (.noneValue, []) ∧
    Device.receiveMessage (m :: rest) tz reads1 = (.message m, rest) := by
  refine ⟨rfl, ?_, rfl⟩
  cases tz
  · rw [Device.receiveMessage]
    rw [if_neg (by simp)]
    rw [Device.receiveMessageLoop_quiet reads2 hquiet]
  · rfl

theorem claim_C5_witness :
    (∀ e ∈ ([Device.ReadEvent.timeout, Device.ReadEvent.emptyPayload] :
        List (Device.ReadEvent Nat)),
      e = Device.ReadEvent.timeout ∨ e = Device.ReadEvent.emptyPayload) ∧
    (Device.receiveMessage ([] : List (Device.JMsg Nat)) true
        [Device.ReadEvent.msg ⟨some 7, none, 0⟩] = (.noneValue, []) ∧
     Device.receiveMessage ([] : List (Device.JMsg Nat)) false
        [Device.ReadEvent.timeout, Device.ReadEvent.emptyPayload] = (.noneValue, []) ∧
     Device.receiveMessage [(⟨none, none, 0⟩ : Device.JMsg Nat), ⟨some 3, none, 0⟩] false
        [Device.ReadEvent.msg ⟨some 7, none, 0⟩] = (.message ⟨none, none, 0⟩, [⟨some 3, none, 0⟩])) :=
  ⟨by decide,
    claim_C5_receive_message [Device.ReadEvent.msg ⟨some 7, none, 0⟩]
      [Device.ReadEvent.timeout, Device.ReadEvent.emptyPayload] false
      ⟨none, none, 0⟩ [⟨some 3, none, 0⟩] (by decide)⟩

/-- C7: while `_receive_response` awaits a call's response, after any run of
non-deciding reads a frame with a `result` key completes the call with that
result; a frame with an `error` key (and no `result` key) raises
`DeviceErrorResponse` carrying the device-supplied message and code; an
unsolicited frame is appended to the event queue and reading continues; and
a deadline that passes with only non-deciding reads raises `ReceiveTimeout`. -/
theorem claim_C7_receive_response {V : Type}
    (pre rest reads : List (Device.ReadEvent V)) (m : Device.JMsg V) (v : V)
    (emsg ecode : Option V) (q : List (Device.JMsg V))
    (hpre : ∀ e ∈ pre, Device.nonDeciding e = true)
    (hall : ∀ e ∈ reads, Device.nonDeciding e = true) :
    (m.resultVal = some v →
      Device.receiveResponse (pre ++ Device.ReadEvent.msg m :: rest) q =
        (.ok v, q ++ Device.queuedOf pre)) ∧
    (m.resultVal = none → m.errorObj = some (emsg, ecode) →
      Device.receiveResponse (pre ++ Device.ReadEvent.msg m :: rest) q =
        (.deviceError emsg ecode, q ++ Device.queuedOf pre)) ∧
    (m.resultVal = none → m.errorObj = none →
      Device.receiveResponse (Device.ReadEvent.msg m :: rest) q =
        Device.receiveResponse rest (q ++ [m])) ∧
    Device.receiveResponse reads q = (.timedOut, q ++ Device.queuedOf reads) := by
  refine ⟨?_, ?_, ?_, Device.receiveResponse_all_nonDeciding reads hall q⟩
  · intro hres
    rw [Device.receiveResponse_append pre hpre]
    rw [Device.receiveResponse, hres]
  · intro hres herr
    rw [Device.receiveResponse_append pre hpre]
    rw [Device.receiveResponse, hres, herr]
  · intro hres herr
    rw [Device.receiveResponse, hres, herr]

theorem claim_C7_witness :
    (∀ e ∈ ([Device.ReadEvent.timeout,
        Device.ReadEvent.msg ⟨none, none, 0⟩] : List (Device.ReadEvent Nat)),
      Device.nonDeciding e = true) ∧
    ((⟨some 9, none, 0⟩ : Device.JMsg Nat).resultVal = some 9 →
      Device.receiveResponse
          ([Device.ReadEvent.timeout, Device.ReadEvent.msg ⟨none, none, 0⟩] ++
            Device.ReadEvent.msg ⟨some 9, none, 0⟩ :: [])
          [] =
        (.ok 9, [] ++ Device.queuedOf
          [Device.ReadEvent.timeout, Device.ReadEvent.msg ⟨none, none, 0⟩])) :=
  ⟨by decide,
    (claim_C7_receive_response
      [Device.ReadEvent.timeout, Device.ReadEvent.msg ⟨none, none, 0⟩] []
      [Device.ReadEvent.timeout, Device.ReadEvent.msg ⟨none, none, 0⟩]
      ⟨some 9, none, 0⟩ 9 none none [] (by decide) (by decide)).1⟩

/-- C9: unsolicited messages buffered by `_receive_response` while a call
awaited its response are handed out by successive `receive_message` calls in
arrival order: three unsolicited arrivals before any `receive_message` call
are returned first-in first-out across three successive calls, whatever the
later transport activity. -/
theorem claim_C9_fifo {V : Type} (m1 m2 m3 mr : Device.JMsg V) (v : V)
    (h1r : m1.resultVal = none) (h1e : m1.errorObj = none)
    (h2r : m2.resultVal = none) (h2e : m2.errorObj = none)
    (h3r : m3.resultVal = none) (h3e : m3.errorObj = none)
    (hrr : mr.resultVal = some v)
    (tz1 tz2 tz3 : Bool) (rd1 rd2 rd3 : List (Device.ReadEvent V)) :
    Device.receiveResponse
        [Device.ReadEvent.msg m1, Device.ReadEvent.msg m2,
         Device.ReadEvent.msg m3, Device.ReadEvent.msg mr] [] =
      (.ok v, [m1, m2, m3]) ∧
    Device.receiveMessage [m1, m2, m3] tz1 rd1 = (.message m1, [m2, m3]) ∧
    Device.receiveMessage [m2, m3] tz2 rd2 = (.message m2, [m3]) ∧
    Device.receiveMessage [m3] tz3 rd3 = (.message m3, []) := by
  refine ⟨?_, rfl, rfl, rfl⟩
  rw [Device.receiveResponse, h1r, h1e]
  rw [Device.receiveResponse, h2r, h2e]
  rw [Device.receiveResponse, h3r, h3e]
  rw [Device.receiveResponse, hrr]
  simp

theorem claim_C9_witness :
    ((⟨none, none, 10⟩ : Device.JMsg Nat).resultVal = none) ∧
    ((⟨some 4, none, 0⟩ : Device.JMsg Nat).resultVal = some 4) ∧
    (Device.receiveResponse
        [Device.ReadEvent.msg (⟨none, none, 10⟩ : Device.JMsg Nat),
         Device.ReadEvent.msg ⟨none, none, 20⟩,
         Device.ReadEvent.msg ⟨none, none, 30⟩,
         Device.ReadEvent.msg ⟨some 4, none, 0⟩] [] =
      (.ok 4, [⟨none, none, 10⟩, ⟨none, none, 20⟩, ⟨none, none, 30⟩]) ∧
     Device.receiveMessage
        [(⟨none, none, 10⟩ : Device.JMsg Nat), ⟨none, none, 20⟩, ⟨none, none, 30⟩]
        true [] =
       (.message ⟨none, none, 10⟩, [⟨none, none, 20⟩, ⟨none, none, 30⟩]) ∧
     Device.receiveMessage
        [(⟨none, none, 20⟩ : Device.JMsg Nat), ⟨none, none, 30⟩] false
        [Device.ReadEvent.timeout] =
       (.message ⟨none, none, 20⟩, [⟨none, none, 30⟩]) ∧
     Device.receiveMessage [(⟨none, none, 30⟩ : Device.JMsg Nat)] true [] =
       (.message ⟨none, none, 30⟩, [])) :=
  ⟨rfl, rfl,
    claim_C9_fifo (⟨none, none, 10⟩ : Device.JMsg Nat) ⟨none, none, 20⟩ ⟨none, none, 30⟩
      ⟨some 4, none, 0⟩ 4 rfl rfl rfl rfl rfl rfl rfl
      true false true [] [Device.ReadEvent.timeout] []⟩

/-- A configuration mapping that the claim calls invalid (its phase table is
empty) yet passes every check `run` performs before opening a device
session. -/
def emptyCycleRawConfig : RecordsLogger.RawConfig :=
  { averaging_period := some 10
    settling_time := some 30
    measurement_cycle := some []
    cycle_shift := some 0
    allow_power_from_usb_data := none
    blowers_enabled_during_zero := none
    hasUnknownKeys := false }

/-- A configuration mapping with a non-positive averaging period. -/
def badAveragingRawConfig : RecordsLogger.RawConfig :=
  { averaging_period := some (-1)
    settling_time := some 30
    measurement_cycle := none
    cycle_shift := some 0
    allow_power_from_usb_data := none
    blowers_enabled_during_zero := none
    hasUnknownKeys := false }

/-- A configuration mapping relying on every default, supplying only the
required cycle shift. -/
def defaultsRawConfig : RecordsLogger.RawConfig :=
  { averaging_period := none
    settling_time := none
    measurement_cycle := none
    cycle_shift := some 0
    allow_power_from_usb_data := none
    blowers_enabled_during_zero := none
    hasUnknownKeys := false }

/-- C3 counterexample: the claim says a configuration whose phase table is
empty fails before any device session is opened, but `measurement_cycle` is
typed as a bare `list` in the pydantic model, so the empty table passes
validation and `run` proceeds to open a device session. -/
theorem claim_C3_counterexample :
    emptyCycleRawConfig.measurement_cycle = some [] ∧
      RecordsLogger.runOpensDeviceSession emptyCycleRawConfig = true := by
  refine ⟨rfl, ?_⟩
  rw [RecordsLogger.runOpensDeviceSession, RecordsLogger.validateConfig_isOk]
  exact ⟨rfl, ⟨0, rfl⟩, by norm_num [emptyCycleRawConfig], by norm_num [emptyCycleRawConfig]⟩

/-- C3 (amended): the validation `run` performs before opening any device
session rejects a non-positive averaging period or settling duration (and a
missing cycle shift or an unknown key), so no device session is opened for
such configurations, and every configuration that validates has positive
averaging period and settling duration; the phase table's contents are not
part of this validation (see the counterexample: an empty phase table still
opens a session). -/
theorem claim_C3_validation (c c' : RecordsLogger.RawConfig)
    (cfg : RecordsLogger.Config)
    (hbad : (∃ ap, c.averaging_period = some ap ∧ ap ≤ 0) ∨
      (∃ st, c.settling_time = some st ∧ st ≤ 0) ∨
      c.cycle_shift = none ∨ c.hasUnknownKeys = true)
    (hok : RecordsLogger.validateConfig c' = .ok cfg) :
    RecordsLogger.runOpensDeviceSession c = false ∧
      0 < cfg.averaging_period ∧ 0 < cfg.settling_time := by
  refine ⟨?_, RecordsLogger.validateConfig_ok_pos c' cfg hok⟩
  rw [RecordsLogger.runOpensDeviceSession]
  cases hv : (RecordsLogger.validateConfig c).isOk with
  | false => rfl
  | true =>
    exfalso
    obtain ⟨hk, ⟨sh, hsh⟩, hap', hst'⟩ := (RecordsLogger.validateConfig_isOk c).mp hv
    rcases hbad with ⟨ap, hap, hap0⟩ | ⟨st, hst, hst0⟩ | hcs | hku
    · rw [hap] at hap'
      simp only [Option.getD_some] at hap'
      linarith
    · rw [hst] at hst'
      simp only [Option.getD_some] at hst'
      linarith
    · rw [hcs] at hsh
      cases hsh
    · rw [hku] at hk
      cases hk

theorem claim_C3_witness :
    ((∃ ap, badAveragingRawConfig.averaging_period = some ap ∧ ap ≤ 0) ∨
      (∃ st, badAveragingRawConfig.settling_time = some st ∧ st ≤ 0) ∨
      badAveragingRawConfig.cycle_shift = none ∨
      badAveragingRawConfig.hasUnknownKeys = true) ∧
    RecordsLogger.validateConfig defaultsRawConfig =
      .ok { averaging_period := 10, settling_time := 30,
            measurement_cycle := [("zero", 60), ("run", 120)], cycle_shift := 0,
            allow_power_from_usb_data := true, blowers_enabled_during_zero := true } ∧
    RecordsLogger.runOpensDeviceSession badAveragingRawConfig = false ∧
    (0 : ℚ) < 10 ∧ (0 : ℚ) < 30 := by
  have hbad : (∃ ap, badAveragingRawConfig.averaging_period = some ap ∧ ap ≤ 0) :=
    ⟨-1, rfl, by norm_num⟩
  have hok : RecordsLogger.validateConfig defaultsRawConfig =
      .ok { averaging_period := 10, settling_time := 30,
            measurement_cycle := [("zero", 60), ("run", 120)], cycle_shift := 0,
            allow_power_from_usb_data := true, blowers_enabled_during_zero := true } := by
    rw [RecordsLogger.validateConfig]
    norm_num [defaultsRawConfig]
  have h := claim_C3_validation badAveragingRawConfig defaultsRawConfig _
    (Or.inl hbad) hok
  exact ⟨Or.inl hbad, hok, h.1, h.2.1, h.2.2⟩

/-- C4: with phase table `[("zero", 60), ("run", 120)]` and shift 0, a fresh
scheduler queried at timestamp 0 returns `"zero"` setting `next_change` to
60; queried next at 61 it returns `"run"` setting `next_change` to 180;
queried next at 200 it returns `"zero"` setting `next_change` to 240. -/
theorem claim_C4_schedule_trace :
    (RecordsLogger.MeasurementCycle.init [("zero", 60), ("run", 120)] 0).get_mode 0 =
      (some "zero",
        { cycle_def := [("zero", 60), ("run", 120)], shift := 0, total_duration := 180,
          next_change := some 60 }) ∧
    ({ cycle_def := [("zero", 60), ("run", 120)], shift := 0, total_duration := 180,
       next_change := some 60 } : RecordsLogger.MeasurementCycle).get_mode 61 =
      (some "run",
        { cycle_def := [("zero", 60), ("run", 120)], shift := 0, total_duration := 180,
          next_change := some 180 }) ∧
    ({ cycle_def := [("zero", 60), ("run", 120)], shift := 0, total_duration := 180,
       next_change := some 180 } : RecordsLogger.MeasurementCycle).get_mode 200 =
      (some "zero",
        { cycle_def := [("zero", 60), ("run", 120)], shift := 0, total_duration := 180,
          next_change := some 240 }) := by
  refine ⟨?_, ?_, ?_⟩ <;>
    norm_num [RecordsLogger.MeasurementCycle.init, RecordsLogger.MeasurementCycle.get_mode,
      RecordsLogger.MeasurementCycle.recompute, RecordsLogger.modeLoop, Int.floor_eq_iff]

/-- C8: a second `get_mode` call with the same timestamp `t`, made while `t`
has not passed the `next_change` instant cached by the first call, reports no
phase change and leaves the scheduler untouched (so a change is reported at
most on the first of the two calls). -/
theorem claim_C8_idempotent (s : RecordsLogger.MeasurementCycle) (t : ℚ)
    (hwf : s.WFState) (hpos : 0 < s.total_duration) :
    ((s.get_mode t).2).get_mode t = (none, (s.get_mode t).2) := by
  obtain ⟨nc, hnc, ht, -, -, -⟩ :=
    RecordsLogger.MeasurementCycle.get_mode_spec s t hwf hpos
  set s1 := (s.get_mode t).2 with hs1
  simp only [RecordsLogger.MeasurementCycle.get_mode, hnc]
  rw [if_neg (not_lt.mpr ht)]

theorem claim_C8_witness :
    (RecordsLogger.MeasurementCycle.init [("zero", 60), ("run", 120)] 0).WFState ∧
    (0 : ℚ) < (RecordsLogger.MeasurementCycle.init
      [("zero", 60), ("run", 120)] 0).total_duration ∧
    (((RecordsLogger.MeasurementCycle.init [("zero", 60), ("run", 120)] 0).get_mode 61).2).get_mode 61 =
      (none, ((RecordsLogger.MeasurementCycle.init
        [("zero", 60), ("run", 120)] 0).get_mode 61).2) :=
  ⟨RecordsLogger.MeasurementCycle.init_wfState _ _,
    by norm_num [RecordsLogger.MeasurementCycle.init],
    claim_C8_idempotent (RecordsLogger.MeasurementCycle.init
        [("zero", 60), ("run", 120)] 0) 61
      (RecordsLogger.MeasurementCycle.init_wfState _ _)
      (by norm_num [RecordsLogger.MeasurementCycle.init])⟩

/-- C10 (implicit): after every `get_mode(t)` call on a scheduler whose
table has positive total duration, `next_change` is set and satisfies
`next_change ≥ t`, so the poll timeout `min(next_change - ts, 1.0)` that
`collect_data` computes immediately afterwards is never negative. -/
theorem claim_C10_poll_timeout (s : RecordsLogger.MeasurementCycle) (t : ℚ)
    (hwf : s.WFState) (hpos : 0 < s.total_duration) :
    ∃ nc, ((s.get_mode t).2).next_change = some nc ∧ t ≤ nc ∧
      0 ≤ RecordsLogger.pollTimeout nc t := by
  obtain ⟨nc, hnc, ht, -, -, -⟩ :=
    RecordsLogger.MeasurementCycle.get_mode_spec s t hwf hpos
  exact ⟨nc, hnc, ht, le_min (sub_nonneg.mpr ht) (by norm_num)⟩

theorem claim_C10_witness :
    (RecordsLogger.MeasurementCycle.init [("run", 1)] 7).WFState ∧
    (0 : ℚ) < (RecordsLogger.MeasurementCycle.init [("run", 1)] 7).total_duration ∧
    (∃ nc, (((RecordsLogger.MeasurementCycle.init [("run", 1)] 7).get_mode 200).2).next_change =
        some nc ∧ (200 : ℚ) ≤ nc ∧ 0 ≤ RecordsLogger.pollTimeout nc 200) :=
  ⟨RecordsLogger.MeasurementCycle.init_wfState _ _,
    by norm_num [RecordsLogger.MeasurementCycle.init],
    claim_C10_poll_timeout (RecordsLogger.MeasurementCycle.init [("run", 1)] 7) 200
      (RecordsLogger.MeasurementCycle.init_wfState _ _)
      (by norm_num [RecordsLogger.MeasurementCycle.init])⟩
